import Mathlib

/-!
Shallow embedding of the `seqpat` line-oriented pattern-matching engine
(`src/seqpat/patterns.py` and `src/seqpat/utility_functions.py`).

Lines are `String`s, a line sequence is a `List String`.  A parse result is
`Option (List String × Nat)`: the emitted items and the next row, or `none`
for "no match".  The regular-expression matcher `R` is embedded with an
abstract line predicate `matchFn : String → Bool` standing for
`regex.match(text) is not None`; its `fmt`/`fmt_match`/`fmt_group` rewrite
forms all compute a list from the matched line and advance by one row, so
they are embedded as a single optional `String → List String` field.
-/

namespace Seqpat

/-- Matcher algebra of `patterns.py`: `T` (literal line), `R` (regex line),
`Seq` (`Sequence`, whose contents mix sub-patterns and literal strings),
`Choice`, and `Rep` (`Repeat` with `min_count`, `max_count`, optional
separator).  `repl` embeds the `repl` keyword, `fmt` the formatting
callback. -/
inductive Pattern where
  | T (text : String) (repl : Option (List String))
  | R (matchFn : String → Bool) (repl : Option (List String)) (fmt : Option (String → List String))
  | Seq (contents : List (Sum Pattern String)) (repl : Option (List String))
      (fmt : Option (List String → List String))
  | Choice (contents : List Pattern)
  | Rep (content : Pattern) (minCount : Nat) (maxCount : Option Nat)
      (repl : Option (List String)) (fmt : Option (List String → List String))
      (sep : Option String)

/-- Loop guard of `Repeat.parse`: `self.max_count is None or count < self.max_count`. -/
def countOk (mx : Option Nat) (count : Nat) : Bool :=
  match mx with
  | none => true
  | some m => decide (count < m)

/-- Shared tail of `Sequence.parse` and `Repeat.parse`: return `repl` if set,
else apply `fmt` if set, else return the accumulated result unchanged. -/
def applyRewrite (repl : Option (List String)) (fmt : Option (List String → List String))
    (result : List String) : List String :=
  match repl, fmt with
  | some r, _ => r
  | none, some f => f result
  | none, none => result

/-- Separator insertion of `Repeat.parse`: `if self.sep is not None and
count >= 1: result.append(self.sep)`. -/
def sepAppend (sep : Option String) (count : Nat) (result : List String) : List String :=
  match sep with
  | some s => if 1 ≤ count then result ++ [s] else result
  | none => result

/-- Shared tail of `T.parse` and `R.parse`: return `repl` if set, else apply
the line-formatting callback if set, else return the matched line as a
singleton list. -/
def applyRewriteLine (repl : Option (List String)) (fmt : Option (String → List String))
    (line : String) : List String :=
  match repl, fmt with
  | some r, _ => r
  | none, some f => f line
  | none, none => [line]

mutual

/-- Embeds the `parse` methods of `patterns.py`.  `T.parse` and `R.parse`
fail past the end of the sequence, otherwise compare/match the current line
and advance by 1.  `Seq` runs its contents in order via `parseSeqL`,
`Choice` tries alternatives in order via `parseChoiceL`, and `Rep` runs the
`Repeat.parse` while-loop via the fueled `repLoop` (the fuel
`minCount + seq.length + 1` is proved sufficient in `repLoop_ne_none`, so
the `none` branch is dead code). -/
def parse : Pattern → List String → Nat → Option (List String × Nat)
  | .T text repl, seq, row =>
    if h : row < seq.length then
      let line := seq[row]
      if line ≠ text then none
      else some (applyRewriteLine repl none line, row + 1)
    else none
  | .R matchFn repl fmt, seq, row =>
    if h : row < seq.length then
      let line := seq[row]
      if matchFn line then some (applyRewriteLine repl fmt line, row + 1)
      else none
    else none
  | .Seq contents repl fmt, seq, row =>
    match parseSeqL contents seq row [] with
    | none => none
    | some (result, nextRow) => some (applyRewrite repl fmt result, nextRow)
  | .Choice contents, seq, row => parseChoiceL contents seq row
  | .Rep content mn mx repl fmt sep, seq, row =>
    match repLoop content mn mx sep seq (mn + seq.length + 1) 0 row [] with
    | none => none
    | some (count, endRow, result) =>
      if count < mn then none
      else some (applyRewrite repl fmt result, endRow)
termination_by p _ _ => (sizeOf p, 0)

/-- Body of the `for content in self.contents` loop of `Sequence.parse`:
string contents are appended to the result without consuming input, pattern
contents must parse and advance the row. -/
def parseSeqL : List (Sum Pattern String) → List String → Nat → List String →
    Option (List String × Nat)
  | [], _, row, result => some (result, row)
  | .inr s :: rest, seq, row, result => parseSeqL rest seq row (result ++ [s])
  | .inl p :: rest, seq, row, result =>
    match parse p seq row with
    | none => none
    | some (parsed, nextRow) => parseSeqL rest seq nextRow (result ++ parsed)
termination_by l _ _ _ => (sizeOf l, 0)

/-- Body of the `for content in self.contents` loop of `Choice.parse`:
return the first successful alternative, `none` if all fail. -/
def parseChoiceL : List Pattern → List String → Nat → Option (List String × Nat)
  | [], _, _ => none
  | p :: rest, seq, row =>
    match parse p seq row with
    | some r => some r
    | none => parseChoiceL rest seq row
termination_by l _ _ => (sizeOf l, 0)

/-- The `while` loop of `Repeat.parse`, with explicit fuel (first `Nat`
argument) standing for the unbounded Python loop; `none` means the fuel ran
out, which `repLoop_ne_none` proves impossible for the fuel used by
`parse`.  State: repetition `count`, current `row`, accumulated `result`.
An iteration runs while `countOk mx count`; if the child fails the loop
stops with the current state; otherwise the separator (from the second
repetition on) and the parsed items are appended, and the loop stops after
this repetition when it consumed no input and the minimum is satisfied. -/
def repLoop (content : Pattern) (mn : Nat) (mx : Option Nat) (sep : Option String)
    (seq : List String) : Nat → Nat → Nat → List String → Option (Nat × Nat × List String)
  | 0, _, _, _ => none
  | fuel + 1, count, row, result =>
    if countOk mx count then
      match parse content seq row with
      | none => some (count, row, result)
      | some (parsed, nextRow) =>
        let result2 := sepAppend sep count result ++ parsed
        if ¬ row < nextRow ∧ mn ≤ count + 1 then some (count + 1, nextRow, result2)
        else repLoop content mn mx sep seq fuel (count + 1) nextRow result2
    else some (count, row, result)
termination_by fuel _ _ _ => (sizeOf content, fuel)

end

/-- Joint row-bounds invariant for all four mutually recursive parsing
functions: a successful parse never moves the row backwards, and never
moves it beyond `max row seq.length`. -/
theorem parse_bounds_mutual :
    (∀ p seq row, ∀ res next, parse p seq row = some (res, next) →
      row ≤ next ∧ next ≤ max row seq.length) ∧
    (∀ content mn mx sep seq fuel count row (result : List String), ∀ result' cnt r res,
      repLoop content mn mx sep seq fuel count row result' = some (cnt, r, res) →
      row ≤ r ∧ r ≤ max row seq.length) ∧
    (∀ l seq row, ∀ res next, parseChoiceL l seq row = some (res, next) →
      row ≤ next ∧ next ≤ max row seq.length) ∧
    (∀ l seq row (acc : List String), ∀ acc' res next, parseSeqL l seq row acc' = some (res, next) →
      row ≤ next ∧ next ≤ max row seq.length) := by
  apply parse.mutual_induct
  · intro text repl seq row h line hne res next heq
    have hl : line = seq[row] := rfl
    rw [hl] at hne
    simp [parse, h, hne] at heq
  · intro text repl seq row h line hne res next heq
    have hl : line = seq[row] := rfl
    rw [hl] at hne
    simp [parse, h, hne] at heq
    omega
  · intro text repl seq row h res next heq
    simp [parse, h] at heq
  · intro mFn repl fmt seq row h line hm res next heq
    have hl : line = seq[row] := rfl
    rw [hl] at hm
    simp [parse, h, hm] at heq
    omega
  · intro mFn repl fmt seq row h line hm res next heq
    have hl : line = seq[row] := rfl
    rw [hl] at hm
    simp [parse, h, hm] at heq
  · intro mFn repl fmt seq row h res next heq
    simp [parse, h] at heq
  · intro contents repl fmt seq row hSeq ih res next heq
    simp [parse, hSeq] at heq
  · intro contents repl fmt seq row result nextRow hSeq ih res next heq
    simp [parse, hSeq] at heq
    obtain ⟨h1, h2⟩ := ih [] result nextRow hSeq
    omega
  · intro contents seq row ih res next heq
    simp only [parse] at heq
    exact ih res next heq
  · intro content mn mx repl fmt sep seq row hLoop ih res next heq
    simp [parse, hLoop] at heq
  · intro content mn mx repl fmt sep seq row count endRow result hLoop hlt ih res next heq
    simp [parse, hLoop, hlt] at heq
  · intro content mn mx repl fmt sep seq row count endRow result hLoop hlt ih res next heq
    simp [parse, hLoop, hlt] at heq
    obtain ⟨h1, h2⟩ := ih [] count endRow result hLoop
    omega
  · intro content mn mx sep seq x x1 x2 result' cnt r res heq
    simp [repLoop] at heq
  · intro content mn mx sep seq fuel count row result hOk hp ihp result' cnt r res heq
    simp [repLoop, hOk, hp] at heq
    omega
  · intro content mn mx sep seq fuel count row result hOk parsed nextRow hp hStop ihp
      result' cnt r res heq
    simp [repLoop, hOk, hp, hStop] at heq
    obtain ⟨h1, h2⟩ := ihp parsed nextRow hp
    omega
  · intro content mn mx sep seq fuel count row result hOk parsed nextRow hp r2 hStop ihp
      ihrec result' cnt r res heq
    simp [repLoop, hOk, hp] at heq
    have hc : ¬(nextRow ≤ row ∧ mn ≤ count + 1) := by omega
    rw [if_neg hc] at heq
    obtain ⟨h1, h2⟩ := ihp parsed nextRow hp
    obtain ⟨h3, h4⟩ := ihrec _ cnt r res heq
    omega
  · intro content mn mx sep seq fuel count row result hOk result' cnt r res heq
    simp [repLoop, hOk] at heq
    omega
  · intro seq row res next heq
    simp [parseChoiceL] at heq
  · intro p rest seq row r hp ihp res next heq
    rcases r with ⟨rres, rnext⟩
    simp only [parseChoiceL, hp] at heq
    obtain ⟨h1, h2⟩ := ihp rres rnext hp
    rcases heq with ⟨hr1, hr2⟩
    omega
  · intro p rest seq row hp ihp ih res next heq
    simp only [parseChoiceL, hp] at heq
    exact ih res next heq
  · intro seq row result acc' res next heq
    simp [parseSeqL] at heq
    omega
  · intro s rest seq row result ih acc' res next heq
    simp only [parseSeqL] at heq
    exact ih _ res next heq
  · intro p rest seq row result hp ihp acc' res next heq
    simp [parseSeqL, hp] at heq
  · intro p rest seq row result parsed nextRow hp ihp ih acc' res next heq
    simp only [parseSeqL, hp] at heq
    obtain ⟨h1, h2⟩ := ihp parsed nextRow hp
    obtain ⟨h3, h4⟩ := ih _ res next heq
    omega

/-- Monotonicity: a successful `parse` never returns a next row smaller
than the start row (the `next_position >= position` invariant). -/
theorem parse_mono {p : Pattern} {seq : List String} {row : Nat} {res : List String} {next : Nat}
    (h : parse p seq row = some (res, next)) : row ≤ next :=
  (parse_bounds_mutual.1 p seq row res next h).1

/-- Upper bound: a successful `parse` never moves the row past
`max row seq.length`; in particular, from a row inside the sequence it
never moves past the end. -/
theorem parse_next_le {p : Pattern} {seq : List String} {row : Nat} {res : List String} {next : Nat}
    (h : parse p seq row = some (res, next)) : next ≤ max row seq.length :=
  (parse_bounds_mutual.1 p seq row res next h).2

/-- Row bounds for the `Repeat.parse` loop body. -/
theorem repLoop_row_le {content : Pattern} {mn : Nat} {mx : Option Nat} {sep : Option String}
    {seq : List String} {fuel count row : Nat} {result : List String} {cnt r : Nat}
    {res : List String}
    (h : repLoop content mn mx sep seq fuel count row result = some (cnt, r, res)) :
    row ≤ r ∧ r ≤ max row seq.length :=
  parse_bounds_mutual.2.1 content mn mx sep seq fuel count row [] result cnt r res h

/-- Embeds the scan loop of `gsub` (`utility_functions.py`): starting at
`row` with accumulated output `replacedSeq`, scan to the end of `seq`.  On
a failed match: `strict` raises, otherwise the unmatched line is copied
(unless `drop`) and the row advances by 1.  On a successful match the
emitted items are appended and the row advances to the match's end row,
or by 1 if the match consumed nothing. -/
def gsubLoop (p : Pattern) (seq : List String) (drop strict : Bool) (row : Nat)
    (replacedSeq : List String) : Except String (List String) :=
  if h : row < seq.length then
    match hr : parse p seq row with
    | none =>
      if strict then .error s!"Pattern not matched at row {row}"
      else if drop then gsubLoop p seq drop strict (row + 1) replacedSeq
      else gsubLoop p seq drop strict (row + 1) (replacedSeq ++ [seq[row]])
    | some (result, nextRow) =>
      if hz : nextRow = row then gsubLoop p seq drop strict (row + 1) (replacedSeq ++ result)
      else gsubLoop p seq drop strict nextRow (replacedSeq ++ result)
  else .ok replacedSeq
termination_by seq.length - row
decreasing_by
  · omega
  · omega
  · omega
  · have := parse_mono hr
    omega

/-- Unfolding of `gsubLoop` on a failed match. -/
theorem gsubLoop_none {p : Pattern} {seq : List String} (drop strict : Bool) {row : Nat}
    (replacedSeq : List String) (h : row < seq.length) (hr : parse p seq row = none) :
    gsubLoop p seq drop strict row replacedSeq =
      if strict then .error s!"Pattern not matched at row {row}"
      else if drop then gsubLoop p seq drop strict (row + 1) replacedSeq
      else gsubLoop p seq drop strict (row + 1) (replacedSeq ++ [seq[row]]) := by
  rw [gsubLoop.eq_def, dif_pos h]
  split <;> simp_all

/-- Unfolding of `gsubLoop` on a successful match. -/
theorem gsubLoop_some {p : Pattern} {seq : List String} (drop strict : Bool) {row : Nat}
    (replacedSeq : List String) {result : List String} {nextRow : Nat} (h : row < seq.length)
    (hr : parse p seq row = some (result, nextRow)) :
    gsubLoop p seq drop strict row replacedSeq =
      if nextRow = row then gsubLoop p seq drop strict (row + 1) (replacedSeq ++ result)
      else gsubLoop p seq drop strict nextRow (replacedSeq ++ result) := by
  rw [gsubLoop.eq_def, dif_pos h]
  split
  · simp_all
  · rename_i result' nextRow' heq
    rw [hr] at heq
    cases heq
    split <;> simp_all

/-- Unfolding of `gsubLoop` at the end of the sequence. -/
theorem gsubLoop_end {p : Pattern} {seq : List String} (drop strict : Bool) {row : Nat}
    (replacedSeq : List String) (h : ¬ row < seq.length) :
    gsubLoop p seq drop strict row replacedSeq = .ok replacedSeq := by
  rw [gsubLoop.eq_def, dif_neg h]

/-- Unfolding of `gsubLoop` inside the sequence, as a plain (non-dependent)
match on the parse result, usable for evaluation. -/
theorem gsubLoop_step (p : Pattern) (seq : List String) (drop strict : Bool) (row : Nat)
    (replacedSeq : List String) (h : row < seq.length) :
    gsubLoop p seq drop strict row replacedSeq =
      match parse p seq row with
      | none =>
        if strict then .error s!"Pattern not matched at row {row}"
        else if drop then gsubLoop p seq drop strict (row + 1) replacedSeq
        else gsubLoop p seq drop strict (row + 1) (replacedSeq ++ [seq[row]])
      | some (result, nextRow) =>
        if nextRow = row then gsubLoop p seq drop strict (row + 1) (replacedSeq ++ result)
        else gsubLoop p seq drop strict nextRow (replacedSeq ++ result) := by
  rcases hp : parse p seq row with _ | ⟨result, nextRow⟩
  · rw [gsubLoop_none drop strict replacedSeq h hp]
  · rw [gsubLoop_some drop strict replacedSeq h hp]

/-- Embeds `gsub`: the `assert not (drop and strict)` guard followed by the
scan loop from row 0 with empty output. -/
def gsub (p : Pattern) (seq : List String) (drop strict : Bool) : Except String (List String) :=
  if drop && strict then .error "drop and strict are mutually exclusive."
  else gsubLoop p seq drop strict 0 []

/-- Embeds the delimiter search of `split_by`
(`for row_delimiter_found in range(row, len(seq))`): the first row index
at or after `row` where the delimiter parses, with the parse result. -/
def findDelim (p : Pattern) (seq : List String) (row : Nat) :
    Option (Nat × (List String × Nat)) :=
  if h : row < seq.length then
    match parse p seq row with
    | some r => some (row, r)
    | none => findDelim p seq (row + 1)
  else none
termination_by seq.length - row

/-- Properties of a successful delimiter search: the index found is at or
after the start, inside the sequence, and the delimiter parses there. -/
theorem findDelim_spec {p : Pattern} {seq : List String} {row i : Nat}
    {res : List String} {next : Nat}
    (h : findDelim p seq row = some (i, res, next)) :
    row ≤ i ∧ i < seq.length ∧ parse p seq i = some (res, next) := by
  induction row using findDelim.induct p seq with
  | case1 row hlt r hr =>
    rw [findDelim, dif_pos hlt, hr] at h
    obtain ⟨rfl, rfl⟩ : row = i ∧ r = (res, next) := by
      constructor <;> [skip; skip] <;> cases h <;> rfl
    exact ⟨le_refl _, hlt, hr⟩
  | case2 row hlt hr ih =>
    rw [findDelim, dif_pos hlt, hr] at h
    obtain ⟨h1, h2, h3⟩ := ih h
    exact ⟨by omega, h2, h3⟩
  | case3 row hge =>
    rw [findDelim, dif_neg hge] at h
    cases h

/-- Embeds the `while row < len(seq)` loop of `split_by`: search for the
next delimiter; if none remains, the rest of the sequence becomes the last
segment; a delimiter matching the empty span is a fatal error; otherwise
the lines strictly before the delimiter form a segment (followed by the
delimiter's own result when `keepDelimiters`), and the scan resumes at the
delimiter's end row.  When the loop exits at the end of the sequence a
trailing empty segment is appended. -/
def splitLoop (p : Pattern) (seq : List String) (keepDelimiters : Bool) (row : Nat)
    (splitted : List (List String)) : Except String (List (List String)) :=
  if h : row < seq.length then
    match hf : findDelim p seq row with
    | none => .ok (splitted ++ [seq.drop row])
    | some (rowFound, result, nextRow) =>
      if hz : nextRow = rowFound then
        .error s!"Delimiter pattern matched an empty sequence at row {rowFound}"
      else
        let splitted1 := splitted ++ [(seq.drop row).take (rowFound - row)]
        let splitted2 := if keepDelimiters then splitted1 ++ [result] else splitted1
        splitLoop p seq keepDelimiters nextRow splitted2
  else .ok (splitted ++ [[]])
termination_by seq.length - row
decreasing_by
  · obtain ⟨h1, h2, h3⟩ := findDelim_spec hf
    have := parse_mono h3
    omega

/-- Unfolding of `splitLoop` when no further delimiter is found. -/
theorem splitLoop_noDelim {p : Pattern} {seq : List String} (keepDelimiters : Bool) {row : Nat}
    (splitted : List (List String)) (h : row < seq.length) (hf : findDelim p seq row = none) :
    splitLoop p seq keepDelimiters row splitted = .ok (splitted ++ [seq.drop row]) := by
  rw [splitLoop.eq_def, dif_pos h]
  split <;> simp_all

/-- Unfolding of `splitLoop` when a delimiter is found. -/
theorem splitLoop_found {p : Pattern} {seq : List String} (keepDelimiters : Bool) {row : Nat}
    (splitted : List (List String)) {rowFound : Nat} {result : List String} {nextRow : Nat}
    (h : row < seq.length) (hf : findDelim p seq row = some (rowFound, result, nextRow)) :
    splitLoop p seq keepDelimiters row splitted =
      if nextRow = rowFound then
        .error s!"Delimiter pattern matched an empty sequence at row {rowFound}"
      else
        splitLoop p seq keepDelimiters nextRow
          (if keepDelimiters then
            splitted ++ [(seq.drop row).take (rowFound - row)] ++ [result]
           else splitted ++ [(seq.drop row).take (rowFound - row)]) := by
  rw [splitLoop.eq_def, dif_pos h]
  split
  · simp_all
  · rename_i rf' res' nr' heq
    rw [hf] at heq
    cases heq
    split <;> simp_all

/-- Unfolding of `splitLoop` at the end of the sequence (the trailing empty
segment). -/
theorem splitLoop_end {p : Pattern} {seq : List String} (keepDelimiters : Bool) {row : Nat}
    (splitted : List (List String)) (h : ¬ row < seq.length) :
    splitLoop p seq keepDelimiters row splitted = .ok (splitted ++ [[]]) := by
  rw [splitLoop.eq_def, dif_neg h]

/-- Unfolding of `splitLoop` inside the sequence, as a plain match on the
delimiter search result, usable for evaluation. -/
theorem splitLoop_step (p : Pattern) (seq : List String) (keepDelimiters : Bool) (row : Nat)
    (splitted : List (List String)) (h : row < seq.length) :
    splitLoop p seq keepDelimiters row splitted =
      match findDelim p seq row with
      | none => .ok (splitted ++ [seq.drop row])
      | some (rowFound, result, nextRow) =>
        if nextRow = rowFound then
          .error s!"Delimiter pattern matched an empty sequence at row {rowFound}"
        else
          splitLoop p seq keepDelimiters nextRow
            (if keepDelimiters then
              splitted ++ [(seq.drop row).take (rowFound - row)] ++ [result]
             else splitted ++ [(seq.drop row).take (rowFound - row)]) := by
  rcases hf : findDelim p seq row with _ | ⟨rowFound, result, nextRow⟩
  · rw [splitLoop_noDelim keepDelimiters splitted h hf]
  · rw [splitLoop_found keepDelimiters splitted h hf]

/-- Embeds `split_by`: run the scan loop from row 0 with no segments yet. -/
def split_by (delimiterPattern : Pattern) (seq : List String) (keepDelimiters : Bool) :
    Except String (List (List String)) :=
  splitLoop delimiterPattern seq keepDelimiters 0 []

/-- Deterministic consecutive iteration of a child pattern: succeeds (with
the final row) iff the child matches `k` times in a row from `row`, each
match resuming at the previous match's end row. -/
def iterChild (c : Pattern) (seq : List String) : Nat → Nat → Option Nat
  | 0, row => some row
  | k + 1, row =>
    match parse c seq row with
    | none => none
    | some (_, next) => iterChild c seq k next

/-- Like `iterChild`, also collecting the emitted items of the `k` matches
in order (no separators, as built by `Repeat` with `sep=None`). -/
def iterN (c : Pattern) (seq : List String) : Nat → Nat → List String →
    Option (List String × Nat)
  | 0, row, acc => some (acc, row)
  | k + 1, row, acc =>
    match parse c seq row with
    | none => none
    | some (parsed, next) => iterN c seq k next (acc ++ parsed)

/-- Construction-time flattening of `Sequence.__init__`: a content that is
itself a `Seq` node contributes its own contents, anything else is kept
as-is. -/
def flattenContents : List (Sum Pattern String) → List (Sum Pattern String)
  | [] => []
  | .inl (.Seq cs r f) :: rest => cs ++ flattenContents rest
  | c :: rest => c :: flattenContents rest

/-- Smart constructor for `Sequence`: stores the flattened contents
(`self.contents` after the `__init__` loop) together with the rewrite
options. -/
def mkSequence (contents : List (Sum Pattern String)) (repl : Option (List String))
    (fmt : Option (List String → List String)) : Pattern :=
  .Seq (flattenContents contents) repl fmt

/-- Tests whether a pattern is a `Repeat` node
(`isinstance(content, Repeat)`). -/
def isRepeat : Pattern → Bool
  | .Rep _ _ _ _ _ _ => true
  | _ => false

/-- Embeds `Repeat.__init__`; the `count` argument is either a plain
integer (`Sum.inl`) or a `(min, max-or-None)` pair (`Sum.inr`), with the
constructor assertions modeled as `Except.error` of the assertion
message, in source order. -/
def mkRepeat (content : Pattern) (count : Sum Int (Int × Option Int))
    (repl : Option (List String)) (fmt : Option (List String → List String))
    (sep : Option String) : Except String Pattern :=
  if isRepeat content then .error "Repeat cannot contain another Repeat."
  else
    match count with
    | .inl n =>
      if n ≤ 0 then .error "Repetition count cannot be zero or negative."
      else if repl.isSome ∧ fmt.isSome then .error "repl, fmt are mutually exclusive"
      else .ok (.Rep content n.toNat (some n.toNat) repl fmt sep)
    | .inr (mnI, mxI) =>
      if mnI < 0 then .error "Min count must be non-negative."
      else if (match mxI with | none => false | some m => decide (m < mnI)) then
        .error "Max count must be greater than or equal to min count."
      else if mnI = 0 ∧ mxI = some 0 then .error "Min count and max count cannot both be 0."
      else if repl.isSome ∧ fmt.isSome then .error "repl, fmt are mutually exclusive"
      else .ok (.Rep content mnI.toNat (mxI.map Int.toNat) repl fmt sep)

/-- Embeds `Pattern.__mul__`: `p * count` is `Repeat(p, count=count)` with
all other options at their defaults. -/
def mul (p : Pattern) (count : Sum Int (Int × Option Int)) : Except String Pattern :=
  mkRepeat p count none none none

/-- Number of delimiter matches the `split_by` scan accepts from `row` on
(stopping, like `split_by`, at an empty-span delimiter match). -/
def countDelimsFrom (p : Pattern) (seq : List String) (row : Nat) : Nat :=
  if h : row < seq.length then
    match hf : findDelim p seq row with
    | none => 0
    | some (i, _res, next) =>
      if next = i then 0
      else 1 + countDelimsFrom p seq next
  else 0
termination_by seq.length - row
decreasing_by
  · obtain ⟨h1, h2, h3⟩ := findDelim_spec hf
    have := parse_mono h3
    omega

/-- Start row of the final segment of the `split_by` scan: the scan
position once no further delimiter is found. -/
def restStart (p : Pattern) (seq : List String) (row : Nat) : Nat :=
  if h : row < seq.length then
    match hf : findDelim p seq row with
    | none => row
    | some (i, _res, next) =>
      if next = i then row
      else restStart p seq next
  else row
termination_by seq.length - row
decreasing_by
  · obtain ⟨h1, h2, h3⟩ := findDelim_spec hf
    have := parse_mono h3
    omega

/-- Unfolding of `countDelimsFrom` when a consuming delimiter is found. -/
theorem countDelimsFrom_found {p : Pattern} {seq : List String} {row rowFound : Nat}
    {result : List String} {nextRow : Nat} (h : row < seq.length)
    (hf : findDelim p seq row = some (rowFound, result, nextRow)) (hz : nextRow ≠ rowFound) :
    countDelimsFrom p seq row = 1 + countDelimsFrom p seq nextRow := by
  rw [countDelimsFrom.eq_def, dif_pos h]
  split
  · simp_all
  · rename_i rf' res' nr' heq
    rw [hf] at heq
    cases heq
    rw [if_neg hz]

/-- Unfolding of `countDelimsFrom` when no further delimiter is found. -/
theorem countDelimsFrom_noDelim {p : Pattern} {seq : List String} {row : Nat}
    (hf : findDelim p seq row = none) : countDelimsFrom p seq row = 0 := by
  rw [countDelimsFrom.eq_def]
  split
  · split <;> simp_all
  · rfl

/-- Unfolding of `countDelimsFrom` past the end of the sequence. -/
theorem countDelimsFrom_end {p : Pattern} {seq : List String} {row : Nat}
    (h : ¬ row < seq.length) : countDelimsFrom p seq row = 0 := by
  rw [countDelimsFrom.eq_def, dif_neg h]

/-- Unfolding of `countDelimsFrom` inside the sequence as a plain match. -/
theorem countDelimsFrom_step (p : Pattern) (seq : List String) (row : Nat)
    (h : row < seq.length) :
    countDelimsFrom p seq row =
      match findDelim p seq row with
      | none => 0
      | some (i, _res, next) => if next = i then 0 else 1 + countDelimsFrom p seq next := by
  rcases hf : findDelim p seq row with _ | ⟨i, res, next⟩
  · rw [countDelimsFrom_noDelim hf]
  · rcases Decidable.em (next = i) with hz | hz
    · subst hz
      rw [countDelimsFrom.eq_def, dif_pos h]
      split
      · simp_all
      · rename_i rf' res' nr' heq
        rw [hf] at heq
        cases heq
        simp
    · rw [countDelimsFrom_found h hf hz]
      simp [hz]

/-- Unfolding of `restStart` when a consuming delimiter is found. -/
theorem restStart_found {p : Pattern} {seq : List String} {row rowFound : Nat}
    {result : List String} {nextRow : Nat} (h : row < seq.length)
    (hf : findDelim p seq row = some (rowFound, result, nextRow)) (hz : nextRow ≠ rowFound) :
    restStart p seq row = restStart p seq nextRow := by
  rw [restStart.eq_def, dif_pos h]
  split
  · simp_all
  · rename_i rf' res' nr' heq
    rw [hf] at heq
    cases heq
    rw [if_neg hz]

/-- Unfolding of `restStart` when no further delimiter is found. -/
theorem restStart_noDelim {p : Pattern} {seq : List String} {row : Nat}
    (hf : findDelim p seq row = none) : restStart p seq row = row := by
  rw [restStart.eq_def]
  split
  · split <;> simp_all
  · rfl

/-- Unfolding of `restStart` past the end of the sequence. -/
theorem restStart_end {p : Pattern} {seq : List String} {row : Nat}
    (h : ¬ row < seq.length) : restStart p seq row = row := by
  rw [restStart.eq_def, dif_neg h]

/-- Unfolding of `restStart` inside the sequence as a plain match. -/
theorem restStart_step (p : Pattern) (seq : List String) (row : Nat)
    (h : row < seq.length) :
    restStart p seq row =
      match findDelim p seq row with
      | none => row
      | some (i, _res, next) => if next = i then row else restStart p seq next := by
  rcases hf : findDelim p seq row with _ | ⟨i, res, next⟩
  · rw [restStart_noDelim hf]
  · rcases Decidable.em (next = i) with hz | hz
    · subst hz
      rw [restStart.eq_def, dif_pos h]
      split
      · simp_all
      · rename_i rf' res' nr' heq
        rw [hf] at heq
        cases heq
        simp
    · rw [restStart_found h hf hz]
      simp [hz]

/-- String-only contents are left unchanged by construction-time flattening. -/
theorem flattenContents_strings (ss : List String) :
    flattenContents (ss.map Sum.inr) = ss.map Sum.inr := by
  induction ss with
  | nil => rfl
  | cons s rest ih => simp [flattenContents, ih]

/-- `parseSeqL` over string-only contents appends the strings to the
accumulated result and leaves the row unchanged, at every row. -/
theorem parseSeqL_strings (seq : List String) (row : Nat) :
    ∀ (ss acc : List String), parseSeqL (ss.map Sum.inr) seq row acc = some (acc ++ ss, row) := by
  intro ss
  induction ss with
  | nil => simp [parseSeqL]
  | cons s rest ih =>
    intro acc
    simp only [List.map_cons, parseSeqL, ih]
    simp

/-- C7: for every matcher of the algebra (`T`, `R`, `Seq`, `Choice`, `Rep`)
and every input sequence and start row, a successful `parse` returns a next
row that is greater than or equal to the start row (monotonicity; equality
is the zero-width match case). -/
theorem C7_parse_monotonic (p : Pattern) (seq : List String) (row : Nat) (res : List String)
    (next : Nat) (h : parse p seq row = some (res, next)) : row ≤ next :=
  parse_mono h

/-- Witness for C7 at a concrete matcher and input. -/
theorem C7_parse_monotonic_witness :
    parse (.T "a" none) ["a"] 0 = some (["a"], 1) ∧ (0 : Nat) ≤ 1 :=
  ⟨by simp [parse, applyRewriteLine],
   C7_parse_monotonic (.T "a" none) ["a"] 0 ["a"] 1 (by simp [parse, applyRewriteLine])⟩

/-- C9: a `Sequence` whose contents are all literal strings (including the
empty `Sequence`) succeeds at every start row — also at rows at or past the
end of the input — consuming no input and emitting exactly its string
contents in order; it never returns no-match. -/
theorem C9_string_sequence_always_matches (ss seq : List String) (row : Nat) :
    parse (mkSequence (ss.map Sum.inr) none none) seq row = some (ss, row) := by
  simp [mkSequence, flattenContents_strings, parse, parseSeqL_strings seq row ss [],
    applyRewrite]

/-- C5: `gsubLoop` in strict mode aborts at an unmatched line with a fatal
error naming that row, returning an `Except.error` (no partial output list
is returned); and `gsub` with both `drop` and `strict` set fails with the
construction-time error. -/
theorem C5_gsub_strict_aborts :
    (∀ (p : Pattern) (seq : List String) (drop : Bool) (row : Nat) (acc : List String),
      row < seq.length → parse p seq row = none →
      gsubLoop p seq drop true row acc = .error s!"Pattern not matched at row {row}") ∧
    (∀ (p : Pattern) (seq : List String),
      gsub p seq true true = .error "drop and strict are mutually exclusive.") := by
  constructor
  · intro p seq drop row acc h hr
    rw [gsubLoop_none drop true acc h hr]
    simp
  · intro p seq
    simp [gsub]

/-- Witness for C5 at a concrete matcher and input. -/
theorem C5_gsub_strict_aborts_witness :
    (0 < (["b"] : List String).length ∧ parse (.T "a" none) ["b"] 0 = none ∧
      gsubLoop (.T "a" none) ["b"] false true 0 [] = .error "Pattern not matched at row 0") ∧
    gsub (.T "a" none) ["b"] true true = .error "drop and strict are mutually exclusive." := by
  refine ⟨⟨by simp, by simp [parse], ?_⟩, C5_gsub_strict_aborts.2 (.T "a" none) ["b"]⟩
  exact C5_gsub_strict_aborts.1 (.T "a" none) ["b"] false 0 [] (by simp) (by simp [parse])

/-- C6: if the first delimiter found by the `split_by` scan matches the
empty span (its end row equals the row where it matched), the split aborts
with a fatal error naming that row and returns no partial result; otherwise
every accepted delimiter match consumes at least one line (its end row is
strictly beyond its match row). -/
theorem C6_split_by_empty_delimiter_error :
    (∀ (p : Pattern) (seq : List String) (keep : Bool) (row : Nat) (acc : List (List String))
      (i : Nat) (res : List String) (next : Nat),
      row < seq.length → findDelim p seq row = some (i, res, next) → next = i →
      splitLoop p seq keep row acc =
        .error s!"Delimiter pattern matched an empty sequence at row {i}") ∧
    (∀ (p : Pattern) (seq : List String) (row i : Nat) (res : List String) (next : Nat),
      findDelim p seq row = some (i, res, next) → next ≠ i → i < next) := by
  constructor
  · intro p seq keep row acc i res next h hf hz
    rw [splitLoop_found keep acc h hf, if_pos hz]
  · intro p seq row i res next hf hz
    obtain ⟨h1, h2, h3⟩ := findDelim_spec hf
    have := parse_mono h3
    omega

/-- Witness for C6: the empty `Sequence` pattern matches the empty span,
so using it as a delimiter is the fatal empty-match error; and a literal
delimiter consumes a line. -/
theorem C6_split_by_empty_delimiter_error_witness :
    (0 < (["a"] : List String).length ∧
      findDelim (.Seq [] none none) ["a"] 0 = some (0, [], 0) ∧
      splitLoop (.Seq [] none none) ["a"] false 0 [] =
        .error "Delimiter pattern matched an empty sequence at row 0") ∧
    (findDelim (.T "a" none) ["a"] 0 = some (0, ["a"], 1) ∧ (0 : Nat) < 1) := by
  refine ⟨⟨by simp, by simp [findDelim, parse, parseSeqL, applyRewrite], ?_⟩,
    ⟨by simp [findDelim, parse, applyRewriteLine], ?_⟩⟩
  · exact C6_split_by_empty_delimiter_error.1 (.Seq [] none none) ["a"] false 0 [] 0 [] 0
      (by simp) (by simp [findDelim, parse, parseSeqL, applyRewrite]) rfl
  · exact C6_split_by_empty_delimiter_error.2 (.T "a" none) ["a"] 0 0 ["a"] 1
      (by simp [findDelim, parse, applyRewriteLine]) (by omega)

/-- C3: a zero-width success (`next = row`) still advances the `gsub` scan
by exactly one row, and every `gsub` step moves to a strictly larger row
(the scan's next position, `row + 1` on a zero-width match and the match's
end row otherwise, always exceeds `row`), so the scan terminates — in this
embedding `gsubLoop` is total by well-founded recursion on that measure. -/
theorem C3_gsub_zero_width_advance :
    (∀ (p : Pattern) (seq : List String) (drop strict : Bool) (row : Nat)
      (acc res : List String), row < seq.length → parse p seq row = some (res, row) →
      gsubLoop p seq drop strict row acc = gsubLoop p seq drop strict (row + 1) (acc ++ res)) ∧
    (∀ (p : Pattern) (seq : List String) (row : Nat) (res : List String) (next : Nat),
      parse p seq row = some (res, next) → row < (if next = row then row + 1 else next)) := by
  constructor
  · intro p seq drop strict row acc res h hr
    rw [gsubLoop_some drop strict acc h hr, if_pos rfl]
  · intro p seq row res next hr
    have := parse_mono hr
    split <;> omega

/-- Witness for C3: the empty `Sequence` matches zero-width everywhere. -/
theorem C3_gsub_zero_width_advance_witness :
    (0 < (["a"] : List String).length ∧ parse (.Seq [] none none) ["a"] 0 = some ([], 0) ∧
      gsubLoop (.Seq [] none none) ["a"] false false 0 [] =
        gsubLoop (.Seq [] none none) ["a"] false false 1 ([] ++ [])) ∧
    (0 : Nat) < (if 0 = 0 then 0 + 1 else 0) := by
  refine ⟨⟨by simp, by simp [parse, parseSeqL, applyRewrite], ?_⟩, ?_⟩
  · exact C3_gsub_zero_width_advance.1 (.Seq [] none none) ["a"] false false 0 [] []
      (by simp) (by simp [parse, parseSeqL, applyRewrite])
  · exact C3_gsub_zero_width_advance.2 (.Seq [] none none) ["a"] 0 [] 0
      (by simp [parse, parseSeqL, applyRewrite])

/-- C4: at each scan position, `gsub` copies the single unmatched line
verbatim and advances by 1 when the match fails (omitting the line when
`drop` is set), and on a successful consuming match appends the emitted
items and advances to the match's end row; in particular
`T "int"` with `repl=["INTEGER"]` applied via `gsub` to
`["int","a","int","b","double"]` yields `["INTEGER","a","INTEGER","b","double"]`. -/
theorem C4_gsub_scan_behavior :
    (∀ (p : Pattern) (seq : List String) (row : Nat) (acc : List String)
      (h : row < seq.length), parse p seq row = none →
      gsubLoop p seq false false row acc =
        gsubLoop p seq false false (row + 1) (acc ++ [seq[row]])) ∧
    (∀ (p : Pattern) (seq : List String) (row : Nat) (acc : List String),
      row < seq.length → parse p seq row = none →
      gsubLoop p seq true false row acc = gsubLoop p seq true false (row + 1) acc) ∧
    (∀ (p : Pattern) (seq : List String) (drop strict : Bool) (row : Nat)
      (acc res : List String) (next : Nat), row < seq.length →
      parse p seq row = some (res, next) → next ≠ row →
      gsubLoop p seq drop strict row acc = gsubLoop p seq drop strict next (acc ++ res)) ∧
    gsub (.T "int" (some ["INTEGER"])) ["int", "a", "int", "b", "double"] false false
      = .ok ["INTEGER", "a", "INTEGER", "b", "double"] := by
  refine ⟨?_, ?_, ?_, ?_⟩
  · intro p seq row acc h hr
    rw [gsubLoop_none false false acc h hr]
    simp
  · intro p seq row acc h hr
    rw [gsubLoop_none true false acc h hr]
    simp
  · intro p seq drop strict row acc res next h hr hz
    rw [gsubLoop_some drop strict acc h hr, if_neg hz]
  · simp [gsub, gsubLoop_step, gsubLoop_end, parse, applyRewriteLine]

/-- Witness for C4 at concrete matchers and inputs. -/
theorem C4_gsub_scan_behavior_witness :
    (gsubLoop (.T "x" none) ["a"] false false 0 [] =
      gsubLoop (.T "x" none) ["a"] false false 1 ([] ++ ["a"])) ∧
    (gsubLoop (.T "x" none) ["a"] true false 0 [] =
      gsubLoop (.T "x" none) ["a"] true false 1 []) ∧
    (gsubLoop (.T "a" none) ["a"] false false 0 [] =
      gsubLoop (.T "a" none) ["a"] false false 1 ([] ++ ["a"])) ∧
    gsub (.T "int" (some ["INTEGER"])) ["int", "a", "int", "b", "double"] false false
      = .ok ["INTEGER", "a", "INTEGER", "b", "double"] := by
  refine ⟨?_, ?_, ?_, C4_gsub_scan_behavior.2.2.2⟩
  · exact C4_gsub_scan_behavior.1 (.T "x" none) ["a"] 0 [] (by simp) (by simp [parse])
  · exact C4_gsub_scan_behavior.2.1 (.T "x" none) ["a"] 0 [] (by simp) (by simp [parse])
  · exact C4_gsub_scan_behavior.2.2.1 (.T "a" none) ["a"] false false 0 [] ["a"] 1 (by simp)
      (by simp [parse, applyRewriteLine]) (by omega)

/-- C8: constructing a `Sequence` from a child that is itself a `Seq` node
inlines that child's contents at construction time, and the flattening is
associativity-preserving: `Sequence(p, Sequence(q, r))`,
`Sequence(Sequence(p, q), r)` and `Sequence(p, q, r)` parse identically on
every input. -/
theorem C8_sequence_flattening_assoc :
    (∀ (cs : List (Sum Pattern String)) (r2 : Option (List String))
      (f2 : Option (List String → List String)) (rest : List (Sum Pattern String))
      (repl : Option (List String)) (fmt : Option (List String → List String)),
      mkSequence (Sum.inl (Pattern.Seq cs r2 f2) :: rest) repl fmt
        = Pattern.Seq (cs ++ flattenContents rest) repl fmt) ∧
    (∀ (p q r : Pattern) (seq : List String) (row : Nat),
      parse (mkSequence [.inl p, .inl (mkSequence [.inl q, .inl r] none none)] none none) seq row
        = parse (mkSequence [.inl (mkSequence [.inl p, .inl q] none none), .inl r] none none)
            seq row
      ∧ parse (mkSequence [.inl p, .inl (mkSequence [.inl q, .inl r] none none)] none none) seq row
        = parse (mkSequence [.inl p, .inl q, .inl r] none none) seq row) := by
  constructor
  · intro cs r2 f2 rest repl fmt
    rfl
  · intro p q r seq row
    have h1 : mkSequence [.inl p, .inl (mkSequence [.inl q, .inl r] none none)] none none
        = mkSequence [.inl p, .inl q, .inl r] none none := by
      cases p <;> cases q <;> cases r <;> simp [mkSequence, flattenContents]
    have h2 : mkSequence [.inl (mkSequence [.inl p, .inl q] none none), .inl r] none none
        = mkSequence [.inl p, .inl q, .inl r] none none := by
      cases p <;> cases q <;> cases r <;> simp [mkSequence, flattenContents]
    exact ⟨by rw [h1, h2], by rw [h1]⟩

/-- Segment count invariant of the `split_by` scan: an `ok` result has one
segment per accepted delimiter (two when delimiters are kept) plus the
final segment, on top of the segments already accumulated. -/
theorem splitLoop_length (p : Pattern) (seq : List String) (keep : Bool) :
    ∀ row splitted segs, splitLoop p seq keep row splitted = .ok segs →
      segs.length = splitted.length + (if keep then 2 else 1) * countDelimsFrom p seq row + 1 := by
  intro row splitted
  induction row, splitted using splitLoop.induct p seq keep with
  | case1 row splitted h hf =>
    intro segs hseg
    rw [splitLoop_noDelim keep splitted h hf] at hseg
    cases hseg
    simp [countDelimsFrom_noDelim hf]
  | case2 row splitted h result nextRow hf =>
    intro segs hseg
    rw [splitLoop_found keep splitted h hf, if_pos rfl] at hseg
    cases hseg
  | case3 row splitted h rowFound result nextRow hf hz s1 s2 ih =>
    intro segs hseg
    rw [splitLoop_found keep splitted h hf, if_neg hz] at hseg
    have hlen := ih segs hseg
    have hcount := countDelimsFrom_found h hf hz
    rw [hcount]
    cases keep <;> simp [s2, s1] at hlen ⊢ <;> omega
  | case4 row splitted h =>
    intro segs hseg
    rw [splitLoop_end keep splitted h] at hseg
    cases hseg
    simp [countDelimsFrom_end h]

/-- Last-segment invariant of the `split_by` scan: the last segment of an
`ok` result is the suffix of the input starting at the row where the scan
ran out of delimiters (`restStart`); when that row is the very end of the
input, the last segment is the appended trailing empty segment. -/
theorem splitLoop_last (p : Pattern) (seq : List String) (keep : Bool) :
    ∀ row splitted segs, splitLoop p seq keep row splitted = .ok segs →
      segs.getLast? = some (seq.drop (restStart p seq row)) := by
  intro row splitted
  induction row, splitted using splitLoop.induct p seq keep with
  | case1 row splitted h hf =>
    intro segs hseg
    rw [splitLoop_noDelim keep splitted h hf] at hseg
    cases hseg
    simp [restStart_noDelim hf]
  | case2 row splitted h result nextRow hf =>
    intro segs hseg
    rw [splitLoop_found keep splitted h hf, if_pos rfl] at hseg
    cases hseg
  | case3 row splitted h rowFound result nextRow hf hz s1 s2 ih =>
    intro segs hseg
    rw [splitLoop_found keep splitted h hf, if_neg hz] at hseg
    rw [restStart_found h hf hz]
    exact ih segs hseg
  | case4 row splitted h =>
    intro segs hseg
    rw [splitLoop_end keep splitted h] at hseg
    cases hseg
    rw [restStart_end h]
    have hd : seq.drop row = [] := List.drop_eq_nil_of_le (by omega)
    simp [hd]

/-- C1: a successful `split_by` returns one more data segment than the
number of accepted delimiter matches (with `keep_delimiters` each
delimiter additionally contributes its own wrapper segment, so the total
is `2 * matches + 1` and the count of data segments alone stays
`matches + 1`); with no delimiter match anywhere the single segment is the
full input; and the last segment is the suffix from the scan's final
position, so a sequence ending exactly at a delimiter gets a trailing
empty segment. -/
theorem C1_split_by_segment_count :
    (∀ (p : Pattern) (seq : List String) (keep : Bool) (segs : List (List String)),
      split_by p seq keep = .ok segs →
      segs.length = (if keep then 2 else 1) * countDelimsFrom p seq 0 + 1) ∧
    (∀ (p : Pattern) (seq : List String) (keep : Bool),
      findDelim p seq 0 = none → split_by p seq keep = .ok [seq]) ∧
    (∀ (p : Pattern) (seq : List String) (keep : Bool) (segs : List (List String)),
      split_by p seq keep = .ok segs →
      segs.getLast? = some (seq.drop (restStart p seq 0)) ∧
      (restStart p seq 0 = seq.length → segs.getLast? = some [])) := by
  refine ⟨?_, ?_, ?_⟩
  · intro p seq keep segs hseg
    have := splitLoop_length p seq keep 0 [] segs hseg
    simpa using this
  · intro p seq keep hf
    unfold split_by
    by_cases h : 0 < seq.length
    · rw [splitLoop_noDelim keep [] h hf]
      simp
    · rw [splitLoop_end keep [] h]
      have : seq = [] := by
        cases seq with
        | nil => rfl
        | cons a l => simp at h
      simp [this]
  · intro p seq keep segs hseg
    have hlast := splitLoop_last p seq keep 0 [] segs hseg
    refine ⟨hlast, fun hrest => ?_⟩
    rw [hlast, hrest]
    simp

/-- Witness for C1 at concrete delimiters and inputs. -/
theorem C1_split_by_segment_count_witness :
    (split_by (.T ";" none) [";", ";"] false = .ok [[], [], []] ∧
      ([[], [], []] : List (List String)).length =
        (if false then 2 else 1) * countDelimsFrom (.T ";" none) [";", ";"] 0 + 1) ∧
    (findDelim (.T ";" none) ["a", "b"] 0 = none ∧
      split_by (.T ";" none) ["a", "b"] false = .ok [["a", "b"]]) ∧
    (restStart (.T ";" none) [";", ";"] 0 = 2 ∧
      ([[], [], []] : List (List String)).getLast? = some []) := by
  have hsplit : split_by (.T ";" none) [";", ";"] false = .ok [[], [], []] := by
    simp [split_by, splitLoop_step, splitLoop_end, findDelim, parse, applyRewriteLine]
  have hfd : findDelim (.T ";" none) ["a", "b"] 0 = none := by
    simp [findDelim, parse]
  have hrest : restStart (.T ";" none) [";", ";"] 0 = 2 := by
    simp [restStart_step, restStart_end, findDelim, parse, applyRewriteLine]
  refine ⟨⟨hsplit, ?_⟩, ⟨hfd, ?_⟩, hrest, ?_⟩
  · exact C1_split_by_segment_count.1 (.T ";" none) [";", ";"] false [[], [], []] hsplit
  · exact C1_split_by_segment_count.2.1 (.T ";" none) ["a", "b"] false hfd
  · exact (C1_split_by_segment_count.2.2 (.T ";" none) [";", ";"] false [[], [], []] hsplit).2
      (by rw [hrest]; rfl)

/-- Fuel sufficiency for the `Repeat.parse` loop: with fuel at least
`(min - count) + (remaining lines) + 1` the loop always reaches one of its
stop conditions (the Python loop terminates). -/
theorem repLoop_ne_none (content : Pattern) (mn : Nat) (mx : Option Nat) (sep : Option String)
    (seq : List String) :
    ∀ (fuel count row : Nat) (acc : List String),
      (mn - count) + (seq.length - row) + 1 ≤ fuel →
      repLoop content mn mx sep seq fuel count row acc ≠ none := by
  intro fuel
  induction fuel with
  | zero =>
    intro count row acc hfuel
    omega
  | succ fuel ih =>
    intro count row acc hfuel hnone
    rw [repLoop.eq_2] at hnone
    by_cases hok : countOk mx count = true
    · rw [if_pos hok] at hnone
      rcases hp : parse content seq row with _ | ⟨parsed, nextRow⟩
      · rw [hp] at hnone
        simp at hnone
      · rw [hp] at hnone
        simp only [] at hnone
        obtain ⟨hb1, hb2⟩ := parse_bounds_mutual.1 content seq row parsed nextRow hp
        split at hnone
        · simp at hnone
        · rename_i hStop
          exact ih (count + 1) nextRow (sepAppend sep count acc ++ parsed)
            (by omega) hnone
    · rw [if_neg hok] at hnone
      simp at hnone

/-- The repetition counter of the `Repeat.parse` loop never decreases. -/
theorem repLoop_count_ge (content : Pattern) (mn : Nat) (mx : Option Nat) (sep : Option String)
    (seq : List String) :
    ∀ (fuel count row : Nat) (acc : List String) (cnt r : Nat) (res : List String),
      repLoop content mn mx sep seq fuel count row acc = some (cnt, r, res) → count ≤ cnt := by
  intro fuel
  induction fuel with
  | zero =>
    intro count row acc cnt r res h
    simp [repLoop] at h
  | succ fuel ih =>
    intro count row acc cnt r res h
    rw [repLoop.eq_2] at h
    by_cases hok : countOk mx count = true
    · rw [if_pos hok] at h
      rcases hp : parse content seq row with _ | ⟨parsed, nextRow⟩
      · rw [hp] at h
        simp at h
        omega
      · rw [hp] at h
        simp only [] at h
        split at h
        · simp at h
          omega
        · have := ih (count + 1) nextRow (sepAppend sep count acc ++ parsed) cnt r res h
          omega
    · rw [if_neg hok] at h
      simp at h
      omega

/-- If the `Repeat.parse` loop stops with fewer than `min` repetitions,
the child cannot match the remaining `min - count` times consecutively
(the loop only ends below the floor through a child failure). -/
theorem repLoop_fail_iter (content : Pattern) (mn : Nat) (mx : Option Nat) (sep : Option String)
    (seq : List String) (hv : ∀ m, mx = some m → mn ≤ m) :
    ∀ (fuel count row : Nat) (acc : List String) (cnt r : Nat) (res : List String),
      repLoop content mn mx sep seq fuel count row acc = some (cnt, r, res) → cnt < mn →
      iterChild content seq (mn - count) row = none := by
  intro fuel
  induction fuel with
  | zero =>
    intro count row acc cnt r res h
    simp [repLoop] at h
  | succ fuel ih =>
    intro count row acc cnt r res h hcnt
    rw [repLoop.eq_2] at h
    by_cases hok : countOk mx count = true
    · rw [if_pos hok] at h
      rcases hp : parse content seq row with _ | ⟨parsed, nextRow⟩
      · rw [hp] at h
        simp at h
        obtain ⟨rfl, -, -⟩ := h
        obtain ⟨d, hd⟩ : ∃ d, mn - count = d + 1 := ⟨mn - count - 1, by omega⟩
        rw [hd]
        simp [iterChild, hp]
      · rw [hp] at h
        simp only [] at h
        split at h
        · rename_i hStop
          simp at h
          omega
        · have hge := repLoop_count_ge content mn mx sep seq fuel (count + 1) nextRow
            (sepAppend sep count acc ++ parsed) cnt r res h
          have hiter := ih (count + 1) nextRow (sepAppend sep count acc ++ parsed)
            cnt r res h hcnt
          obtain ⟨d, hd⟩ : ∃ d, mn - count = d + 1 := ⟨mn - count - 1, by omega⟩
          rw [hd]
          simp only [iterChild, hp]
          have : mn - (count + 1) = d := by omega
          rw [this] at hiter
          exact hiter
    · rw [if_neg hok] at h
      simp at h
      rcases hmx : mx with _ | m
      · rw [hmx] at hok
        simp [countOk] at hok
      · have hm := hv m hmx
        rw [hmx] at hok
        simp [countOk] at hok
        omega

/-- Conversely, if the child cannot match `min - count` more times
consecutively, the `Repeat.parse` loop ends with a final count below
`min`. -/
theorem iter_fail_repLoop (content : Pattern) (mn : Nat) (mx : Option Nat) (sep : Option String)
    (seq : List String) :
    ∀ (fuel count row : Nat) (acc : List String) (cnt r : Nat) (res : List String),
      iterChild content seq (mn - count) row = none →
      repLoop content mn mx sep seq fuel count row acc = some (cnt, r, res) → cnt < mn := by
  intro fuel
  induction fuel with
  | zero =>
    intro count row acc cnt r res hiter h
    simp [repLoop] at h
  | succ fuel ih =>
    intro count row acc cnt r res hiter h
    have hgt : count < mn := by
      by_contra hle
      have : mn - count = 0 := by omega
      rw [this] at hiter
      simp [iterChild] at hiter
    obtain ⟨d, hd⟩ : ∃ d, mn - count = d + 1 := ⟨mn - count - 1, by omega⟩
    rw [hd] at hiter
    rw [repLoop.eq_2] at h
    by_cases hok : countOk mx count = true
    · rw [if_pos hok] at h
      rcases hp : parse content seq row with _ | ⟨parsed, nextRow⟩
      · rw [hp] at h
        simp at h
        omega
      · rw [hp] at h
        simp only [iterChild, hp] at hiter
        simp only [] at h
        split at h
        · rename_i hStop
          obtain ⟨hzw, hmin⟩ := hStop
          have hd0 : d = 0 := by omega
          rw [hd0] at hiter
          simp [iterChild] at hiter
        · have : mn - (count + 1) = d := by omega
          exact ih (count + 1) nextRow (sepAppend sep count acc ++ parsed) cnt r res
            (by rw [this]; exact hiter) h
    · rw [if_neg hok] at h
      simp at h
      omega

/-- C2: the `Repeat.parse` loop always terminates (the fuel
`(min - count) + (remaining lines) + 1` is never exhausted, so the loop
only ends through its three stop conditions: child failure, `max` reached,
or a zero-width repetition with the minimum satisfied); a zero-width
repetition with the minimum not yet satisfied keeps the loop running
(allowing up to `min` zero-width repetitions to satisfy the floor) while a
zero-width repetition with the minimum satisfied stops it; and `Repeat`
returns no-match exactly when the child cannot match `min` times
consecutively from the start row. -/
theorem C2_repeat_loop_termination_and_min :
    (∀ (content : Pattern) (mn : Nat) (mx : Option Nat) (sep : Option String)
      (seq : List String) (fuel count row : Nat) (acc : List String),
      (mn - count) + (seq.length - row) + 1 ≤ fuel →
      repLoop content mn mx sep seq fuel count row acc ≠ none) ∧
    (∀ (content : Pattern) (mn : Nat) (mx : Option Nat) (sep : Option String)
      (seq : List String) (fuel count row : Nat) (acc parsed : List String),
      countOk mx count = true → parse content seq row = some (parsed, row) →
      count + 1 < mn →
      repLoop content mn mx sep seq (fuel + 1) count row acc =
        repLoop content mn mx sep seq fuel (count + 1) row (sepAppend sep count acc ++ parsed)) ∧
    (∀ (content : Pattern) (mn : Nat) (mx : Option Nat) (sep : Option String)
      (seq : List String) (fuel count row : Nat) (acc parsed : List String),
      countOk mx count = true → parse content seq row = some (parsed, row) →
      mn ≤ count + 1 →
      repLoop content mn mx sep seq (fuel + 1) count row acc =
        some (count + 1, row, sepAppend sep count acc ++ parsed)) ∧
    (∀ (content : Pattern) (mn : Nat) (mx : Option Nat) (repl : Option (List String))
      (fmt : Option (List String → List String)) (sep : Option String)
      (seq : List String) (row : Nat),
      (∀ m, mx = some m → mn ≤ m) →
      (parse (.Rep content mn mx repl fmt sep) seq row = none ↔
        iterChild content seq mn row = none)) := by
  refine ⟨?_, ?_, ?_, ?_⟩
  · intro content mn mx sep seq fuel count row acc hfuel
    exact repLoop_ne_none content mn mx sep seq fuel count row acc hfuel
  · intro content mn mx sep seq fuel count row acc parsed hok hp hmin
    have hs : ¬(¬ row < row ∧ mn ≤ count + 1) := by omega
    simp [repLoop, hok, hp, hs]
    intro hcon
    exact absurd hcon (by omega)
  · intro content mn mx sep seq fuel count row acc parsed hok hp hmin
    have hs1 : ¬ row < row := by omega
    simp [repLoop, hok, hp, hs1, hmin]
  · intro content mn mx repl fmt sep seq row hv
    constructor
    · intro hnone
      rcases hLoop : repLoop content mn mx sep seq (mn + seq.length + 1) 0 row [] with
        _ | ⟨cnt, r, res⟩
      · exact absurd hLoop
          (repLoop_ne_none content mn mx sep seq (mn + seq.length + 1) 0 row [] (by omega))
      · have hcnt : cnt < mn := by
          by_contra hge
          simp [parse, hLoop, hge] at hnone
        have := repLoop_fail_iter content mn mx sep seq hv (mn + seq.length + 1) 0 row []
          cnt r res hLoop hcnt
        simpa using this
    · intro hiter
      rcases hLoop : repLoop content mn mx sep seq (mn + seq.length + 1) 0 row [] with
        _ | ⟨cnt, r, res⟩
      · simp [parse, hLoop]
      · have hcnt := iter_fail_repLoop content mn mx sep seq (mn + seq.length + 1) 0 row []
          cnt r res (by simpa using hiter) hLoop
        simp [parse, hLoop, hcnt]

/-- Witness for C2 at concrete patterns and inputs: termination with exact
fuel, a zero-width repetition continuing below the floor and stopping at
the floor, and the no-match criterion for a literal child. -/
theorem C2_repeat_loop_termination_and_min_witness :
    ((0 - 0) + ((["a"] : List String).length - 0) + 1 ≤ 2 ∧
      repLoop (.T "a" none) 0 none none ["a"] 2 0 0 [] ≠ none) ∧
    (countOk none 0 = true ∧ parse (.Seq [] none none) ["a"] 0 = some ([], 0) ∧ 0 + 1 < 2 ∧
      repLoop (.Seq [] none none) 2 none none ["a"] 4 0 0 [] =
        repLoop (.Seq [] none none) 2 none none ["a"] 3 1 0 (sepAppend none 0 [] ++ [])) ∧
    (repLoop (.Seq [] none none) 1 none none ["a"] 4 0 0 [] =
      some (1, 0, sepAppend none 0 [] ++ [])) ∧
    (parse (.Rep (.T "a" none) 1 none none none none) ["b"] 0 = none ↔
      iterChild (.T "a" none) ["b"] 1 0 = none) := by
  have hz : parse (.Seq [] none none) (["a"] : List String) 0 = some ([], 0) := by
    simp [parse, parseSeqL, applyRewrite]
  refine ⟨⟨by simp, ?_⟩, ⟨rfl, hz, by omega, ?_⟩, ?_, ?_⟩
  · exact C2_repeat_loop_termination_and_min.1 (.T "a" none) 0 none none ["a"] 2 0 0 []
      (by simp)
  · exact C2_repeat_loop_termination_and_min.2.1 (.Seq [] none none) 2 none none ["a"] 3 0 0
      [] [] rfl hz (by omega)
  · exact C2_repeat_loop_termination_and_min.2.2.1 (.Seq [] none none) 1 none none ["a"] 3 0 0
      [] [] rfl hz (by omega)
  · exact C2_repeat_loop_termination_and_min.2.2.2 (.T "a" none) 1 none none none none ["b"] 0
      (by intro m hm; cases hm)

/-- With `min = max = k`, a `Repeat.parse` loop whose remaining `d`-fold
child iteration succeeds returns exactly the iteration's result with final
count `k`. -/
theorem repLoop_iterN_some (c : Pattern) (k : Nat) (seq : List String) :
    ∀ (d fuel count row : Nat) (acc res : List String) (r : Nat),
      count + d = k → d + 1 ≤ fuel →
      iterN c seq d row acc = some (res, r) →
      repLoop c k (some k) none seq fuel count row acc = some (k, r, res) := by
  intro d
  induction d with
  | zero =>
    intro fuel count row acc res r hk hfuel hiter
    simp [iterN] at hiter
    obtain ⟨rfl, rfl⟩ := hiter
    obtain ⟨f, rfl⟩ : ∃ f, fuel = f + 1 := ⟨fuel - 1, by omega⟩
    have hlt : ¬ count < k := by omega
    simp [repLoop, countOk, hlt]
    omega
  | succ d ih =>
    intro fuel count row acc res r hk hfuel hiter
    obtain ⟨f, rfl⟩ : ∃ f, fuel = f + 1 := ⟨fuel - 1, by omega⟩
    have hok : countOk (some k) count = true := by
      simp [countOk]
      omega
    rcases hp : parse c seq row with _ | ⟨parsed, next⟩
    · simp [iterN, hp] at hiter
    · simp only [iterN, hp] at hiter
      simp [repLoop, hok, hp, sepAppend]
      split
      · rename_i hstop
        have hd0 : d = 0 := by omega
        subst hd0
        simp [iterN] at hiter
        obtain ⟨rfl, rfl⟩ := hiter
        simp
        omega
      · rename_i hstop
        exact ih f (count + 1) next (acc ++ parsed) res r (by omega) (by omega) hiter

/-- With `min = max = k`, if the remaining `d`-fold child iteration fails,
the `Repeat.parse` loop ends with a final count below `k`. -/
theorem repLoop_iterN_none (c : Pattern) (k : Nat) (seq : List String) :
    ∀ (d fuel count row : Nat) (acc : List String),
      count + d = k → d + 1 ≤ fuel →
      iterN c seq d row acc = none →
      ∃ cnt r res, repLoop c k (some k) none seq fuel count row acc = some (cnt, r, res) ∧
        cnt < k := by
  intro d
  induction d with
  | zero =>
    intro fuel count row acc hk hfuel hiter
    simp [iterN] at hiter
  | succ d ih =>
    intro fuel count row acc hk hfuel hiter
    obtain ⟨f, rfl⟩ : ∃ f, fuel = f + 1 := ⟨fuel - 1, by omega⟩
    have hok : countOk (some k) count = true := by
      simp [countOk]
      omega
    rcases hp : parse c seq row with _ | ⟨parsed, next⟩
    · refine ⟨count, row, acc, ?_, by omega⟩
      simp [repLoop, hok, hp]
    · simp only [iterN, hp] at hiter
      have hcont : ¬(¬ row < next ∧ k ≤ count + 1) := by
        rintro ⟨h1, h2⟩
        have hd0 : d = 0 := by omega
        rw [hd0] at hiter
        simp [iterN] at hiter
      obtain ⟨cnt, r, res, hrec, hcnt⟩ :=
        ih f (count + 1) next (acc ++ parsed) (by omega) (by omega) hiter
      refine ⟨cnt, r, res, ?_, hcnt⟩
      simp [repLoop, hok, hp, sepAppend]
      split
      · rename_i hstop
        exfalso
        omega
      · exact hrec

/-- A `Rep` node with `min = max = k` (and no rewrite or separator) parses
exactly as the `k`-fold consecutive iteration of its child. -/
theorem parse_rep_exact (c : Pattern) (k : Nat) (seq : List String) (row : Nat) :
    parse (.Rep c k (some k) none none none) seq row = iterN c seq k row [] := by
  rcases hiter : iterN c seq k row [] with _ | ⟨res, r⟩
  · obtain ⟨cnt, r, res, hLoop, hcnt⟩ :=
      repLoop_iterN_none c k seq k (k + seq.length + 1) 0 row [] (by omega) (by omega) hiter
    simp [parse, hLoop, hcnt]
  · have hLoop := repLoop_iterN_some c k seq k (k + seq.length + 1) 0 row [] res r
      (by omega) (by omega) hiter
    simp [parse, hLoop, applyRewrite]

/-- C10: `Repeat` built with a plain integer count `n` — also via the
`p * n` operator — sets `min = max = n`, so the node matches exactly `n`
consecutive repetitions of its child; a plain integer count that is zero
or negative is rejected at construction time. -/
theorem C10_integer_count_exact_repetitions :
    (∀ (p : Pattern) (n : Int), isRepeat p = false → n ≤ 0 →
      mul p (.inl n) = .error "Repetition count cannot be zero or negative.") ∧
    (∀ (p : Pattern) (n : Int), isRepeat p = false → 0 < n →
      mul p (.inl n) = .ok (.Rep p n.toNat (some n.toNat) none none none)) ∧
    (∀ (p : Pattern) (k : Nat) (seq : List String) (row : Nat),
      parse (.Rep p k (some k) none none none) seq row = iterN p seq k row []) := by
  refine ⟨?_, ?_, ?_⟩
  · intro p n hrep hn
    simp [mul, mkRepeat, hrep, hn]
  · intro p n hrep hn
    have hn2 : ¬ n ≤ 0 := by omega
    simp [mul, mkRepeat, hrep, hn2]
  · intro p k seq row
    exact parse_rep_exact p k seq row

/-- Witness for C10 at a concrete pattern, count and input. -/
theorem C10_integer_count_exact_repetitions_witness :
    (isRepeat (.T "a" none) = false ∧
      mul (.T "a" none) (.inl 0) = .error "Repetition count cannot be zero or negative.") ∧
    (mul (.T "a" none) (.inl 2) = .ok (.Rep (.T "a" none) 2 (some 2) none none none)) ∧
    (parse (.Rep (.T "a" none) 1 (some 1) none none none) ["a"] 0 =
      iterN (.T "a" none) ["a"] 1 0 [] ∧
      iterN (.T "a" none) ["a"] 1 0 [] = some (["a"], 1)) := by
  refine ⟨⟨rfl, ?_⟩, ?_, ?_, ?_⟩
  · exact C10_integer_count_exact_repetitions.1 (.T "a" none) 0 rfl (by omega)
  · have h := C10_integer_count_exact_repetitions.2.1 (.T "a" none) 2 rfl (by omega)
    simpa using h
  · exact C10_integer_count_exact_repetitions.2.2 (.T "a" none) 1 ["a"] 0
  · simp [iterN, parse, applyRewriteLine]

end Seqpat
